import Mathlib

/-!
Verification of the Task 1 linear-regression core of the repository
(model_training.py, data_preprocessing.py, model_evaluation.py,
feature_analysis.py) against its natural-language specification.

Matrices are row-major lists of rationals.  External library routines of
numpy and pandas are rendered by their documented semantics: the
pseudo-inverse and the seeded permutation generator enter as explicit
function parameters, the shape check of matmul and the broadcasting rule
of elementwise subtraction are written out, and the descending sort of
sort_values is the double-reversal that pandas nargsort performs around
the ascending numpy argsort, with the argsort kernel itself a parameter
constrained only by its documented contract (an ascending permutation;
the default quicksort kind guarantees no tie order).
-/

namespace Task1

/-- Dot product of two equal-length vectors, the inner loop of numpy matmul. -/
def dotProd (a b : List ℚ) : ℚ := (List.zipWith (fun x y => x * y) a b).sum

/-- Column count of a row-major matrix, numpy shape[1] on a rectangular array. -/
def ncols (A : List (List ℚ)) : ℕ := (A.headD []).length

/-- Column j of a row-major matrix. -/
def colAt (A : List (List ℚ)) (j : ℕ) : List ℚ := A.map (fun r => r.getD j 0)

/-- Transpose of a rectangular row-major matrix, numpy .T. -/
def matT (A : List (List ℚ)) : List (List ℚ) := (List.range (ncols A)).map (colAt A)

/-- Matrix product, numpy A @ B on rectangular 2-D arrays. -/
def matMul (A B : List (List ℚ)) : List (List ℚ) :=
  A.map (fun r => (List.range (ncols B)).map (fun j => dotProd r (colAt B j)))

/-- Matrix-vector product, numpy A @ v. -/
def matVec (A : List (List ℚ)) (v : List ℚ) : List ℚ := A.map (fun r => dotProd r v)

/-- A is an m-by-k rectangular matrix. -/
def IsMat (m k : ℕ) (A : List (List ℚ)) : Prop := A.length = m ∧ ∀ r ∈ A, r.length = k

instance (m k : ℕ) (A : List (List ℚ)) : Decidable (IsMat m k A) := by
  unfold IsMat; infer_instance

/-- The two attributes of model_training.LinearRegressionModel; both are
None after __init__ and are set together by fit. -/
structure LinearRegressionModel where
  weights : Option (List ℚ)
  feature_count : Option ℕ
deriving DecidableEq

/-- LinearRegressionModel.__init__: weights and feature_count start as None. -/
def initModel : LinearRegressionModel := ⟨none, none⟩

/-- np.c_[np.ones(X.shape[0]), X]: prepend a column of ones to X. -/
def addBias (X : List (List ℚ)) : List (List ℚ) := X.map (fun r => 1 :: r)

/-- LinearRegressionModel.fit.  np.linalg.pinv is external library code and
enters as the parameter pinv; the method stores
pinv(Xb.T @ Xb) @ (Xb.T @ y) as weights and X.shape[1] as feature_count,
where Xb is X with the bias column of ones prepended. -/
def fit (pinv : List (List ℚ) → List (List ℚ)) (X : List (List ℚ)) (y : List ℚ) :
    LinearRegressionModel :=
  ⟨some (matVec (pinv (matMul (matT (addBias X)) (addBias X))) (matVec (matT (addBias X)) y)),
   some (ncols X)⟩

/-- The failures of the predict path: the explicit ValueError raised for an
unfit model, and the shape error numpy matmul raises on a column-count
mismatch. -/
inductive RegError where
  | modelNotFit
  | dimensionMismatch
deriving DecidableEq

/-- LinearRegressionModel.predict: raises when weights is None; otherwise
numpy evaluates (1 | X) @ w, which demands that the column count of the
augmented matrix equal len(w). -/
def predict (M : LinearRegressionModel) (X : List (List ℚ)) : Except RegError (List ℚ) :=
  match M.weights with
  | none => .error .modelNotFit
  | some w =>
      if ncols (addBias X) = w.length then .ok (matVec (addBias X) w)
      else .error .dimensionMismatch

/-- LinearRegressionModel.get_feature_weights: weights[1:], or a raise when
the model is unfit. -/
def get_feature_weights (M : LinearRegressionModel) : Except RegError (List ℚ) :=
  match M.weights with
  | none => .error .modelNotFit
  | some w => .ok (w.drop 1)

lemma ncols_of_isMat {n k : ℕ} {X : List (List ℚ)} (h : IsMat n k X) (hn : 1 ≤ n) :
    ncols X = k := by
  obtain ⟨hlen, hrow⟩ := h
  cases X with
  | nil => simp at hlen; omega
  | cons r t => exact hrow r (List.mem_cons_self r t)

lemma isMat_addBias {n k : ℕ} {X : List (List ℚ)} (h : IsMat n k X) :
    IsMat n (k + 1) (addBias X) := by
  obtain ⟨hlen, hrow⟩ := h
  refine ⟨by simpa [addBias] using hlen, ?_⟩
  intro r hr
  simp only [addBias, List.mem_map] at hr
  obtain ⟨s, hs, rfl⟩ := hr
  simp [hrow s hs]

lemma length_matT (A : List (List ℚ)) : (matT A).length = ncols A := by
  simp [matT]

lemma row_length_matT (A : List (List ℚ)) : ∀ r ∈ matT A, r.length = A.length := by
  intro r hr
  simp only [matT, List.mem_map] at hr
  obtain ⟨j, _, rfl⟩ := hr
  simp [colAt]

lemma length_matMul (A B : List (List ℚ)) : (matMul A B).length = A.length := by
  simp [matMul]

lemma isMat_matMul (A B : List (List ℚ)) : IsMat A.length (ncols B) (matMul A B) := by
  refine ⟨length_matMul A B, ?_⟩
  intro r hr
  simp only [matMul, List.mem_map] at hr
  obtain ⟨s, _, rfl⟩ := hr
  simp

lemma length_matVec (A : List (List ℚ)) (v : List ℚ) : (matVec A v).length = A.length := by
  simp [matVec]

/-- Claim C1: for every n-by-k feature matrix X (n at least 1) and length-n
target vector y, fit prepends a column of ones to X and stores as weights
the length-(k+1) vector pinv(Xb.T @ Xb) @ (Xb.T @ y); entry 0 is the bias
and entries 1..k, returned by get_feature_weights, are the per-feature
weights.  The external np.linalg.pinv is any routine mapping a square
matrix to one of the same row count, in particular the Moore-Penrose
pseudo-inverse. -/
theorem claimC1_fit_normal_equation
    (pinv : List (List ℚ) → List (List ℚ)) (X : List (List ℚ)) (y : List ℚ) (n k : ℕ)
    (hX : IsMat n k X) (hn : 1 ≤ n) (hy : y.length = n)
    (hpinv : ∀ M, (pinv M).length = M.length) :
    ∃ w, (fit pinv X y).weights = some w ∧
      w = matVec (pinv (matMul (matT (addBias X)) (addBias X))) (matVec (matT (addBias X)) y) ∧
      w.length = k + 1 ∧
      (fit pinv X y).feature_count = some k ∧
      get_feature_weights (fit pinv X y) = .ok (w.drop 1) ∧
      (w.drop 1).length = k ∧
      addBias X = X.map (fun r => 1 :: r) ∧
      IsMat (k + 1) (k + 1) (matMul (matT (addBias X)) (addBias X)) ∧
      (matVec (matT (addBias X)) y).length = k + 1 := by
  have hXb : IsMat n (k + 1) (addBias X) := isMat_addBias hX
  have hncXb : ncols (addBias X) = k + 1 := ncols_of_isMat hXb hn
  have hTlen : (matT (addBias X)).length = k + 1 := by rw [length_matT, hncXb]
  have hXtX : IsMat (k + 1) (k + 1) (matMul (matT (addBias X)) (addBias X)) := by
    have h := isMat_matMul (matT (addBias X)) (addBias X)
    rwa [hTlen, hncXb] at h
  have hwlen : (matVec (pinv (matMul (matT (addBias X)) (addBias X)))
      (matVec (matT (addBias X)) y)).length = k + 1 := by
    rw [length_matVec, hpinv, hXtX.1]
  refine ⟨_, rfl, rfl, hwlen, ?_, rfl, ?_, rfl, hXtX, ?_⟩
  · simp [fit, ncols_of_isMat hX hn]
  · rw [List.length_drop, hwlen]; omega
  · rw [length_matVec, hTlen]

/-- Witness for claim C1: the fit theorem applied at X = [[2]], y = [3],
with the identity map standing in for the external pseudo-inverse. -/
theorem claimC1_fit_normal_equation_witness :
    ∃ w, (fit (fun M => M) [[(2:ℚ)]] [(3:ℚ)]).weights = some w ∧
      w = matVec (matMul (matT (addBias [[(2:ℚ)]])) (addBias [[(2:ℚ)]]))
            (matVec (matT (addBias [[(2:ℚ)]])) [(3:ℚ)]) ∧
      w.length = 1 + 1 ∧
      (fit (fun M => M) [[(2:ℚ)]] [(3:ℚ)]).feature_count = some 1 ∧
      get_feature_weights (fit (fun M => M) [[(2:ℚ)]] [(3:ℚ)]) = .ok (w.drop 1) ∧
      (w.drop 1).length = 1 ∧
      addBias [[(2:ℚ)]] = [[(2:ℚ)]].map (fun r => 1 :: r) ∧
      IsMat (1 + 1) (1 + 1) (matMul (matT (addBias [[(2:ℚ)]])) (addBias [[(2:ℚ)]])) ∧
      (matVec (matT (addBias [[(2:ℚ)]])) [(3:ℚ)]).length = 1 + 1 :=
  claimC1_fit_normal_equation (fun M => M) [[(2:ℚ)]] [(3:ℚ)] 1 1 (by decide) (by decide)
    (by decide) (fun M => rfl)

lemma fit_weights_length (pinv : List (List ℚ) → List (List ℚ)) (X : List (List ℚ))
    (y : List ℚ) (n k : ℕ) (hX : IsMat n k X) (hn : 1 ≤ n)
    (hpinv : ∀ M, (pinv M).length = M.length) :
    (matVec (pinv (matMul (matT (addBias X)) (addBias X)))
      (matVec (matT (addBias X)) y)).length = k + 1 := by
  have hXb : IsMat n (k + 1) (addBias X) := isMat_addBias hX
  have hncXb : ncols (addBias X) = k + 1 := ncols_of_isMat hXb hn
  have hTlen : (matT (addBias X)).length = k + 1 := by rw [length_matT, hncXb]
  rw [length_matVec, hpinv, length_matMul, hTlen]

/-- Claim C6: predict on an unfit model raises the model-not-fit error; on a
model fit with k features it prepends the ones column and returns
(1 | X) @ w, and the shape check of numpy matmul rejects exactly the inputs
whose column count differs from k. -/
theorem claimC6_predict_contract
    (pinv : List (List ℚ) → List (List ℚ)) (X0 : List (List ℚ)) (y : List ℚ)
    (X : List (List ℚ)) (n k m k2 : ℕ)
    (hX0 : IsMat n k X0) (hn : 1 ≤ n)
    (hpinv : ∀ M, (pinv M).length = M.length)
    (hX : IsMat m k2 X) (hm : 1 ≤ m) :
    predict initModel X = .error .modelNotFit ∧
    ∃ w, (fit pinv X0 y).weights = some w ∧
      (k2 ≠ k → predict (fit pinv X0 y) X = .error .dimensionMismatch) ∧
      (k2 = k → predict (fit pinv X0 y) X = .ok (matVec (addBias X) w)) := by
  have hw := fit_weights_length pinv X0 y n k hX0 hn hpinv
  have hnc : ncols (addBias X) = k2 + 1 := ncols_of_isMat (isMat_addBias hX) hm
  refine ⟨rfl, _, rfl, ?_, ?_⟩
  · intro hne
    show (if ncols (addBias X) = (matVec (pinv (matMul (matT (addBias X0)) (addBias X0)))
          (matVec (matT (addBias X0)) y)).length
        then Except.ok (matVec (addBias X) (matVec (pinv (matMul (matT (addBias X0))
          (addBias X0))) (matVec (matT (addBias X0)) y)))
        else Except.error RegError.dimensionMismatch) = Except.error RegError.dimensionMismatch
    rw [hnc, hw, if_neg (by omega)]
  · intro heq
    show (if ncols (addBias X) = (matVec (pinv (matMul (matT (addBias X0)) (addBias X0)))
          (matVec (matT (addBias X0)) y)).length
        then Except.ok (matVec (addBias X) (matVec (pinv (matMul (matT (addBias X0))
          (addBias X0))) (matVec (matT (addBias X0)) y)))
        else Except.error RegError.dimensionMismatch) =
      Except.ok (matVec (addBias X) (matVec (pinv (matMul (matT (addBias X0)) (addBias X0)))
        (matVec (matT (addBias X0)) y)))
    rw [hnc, hw, if_pos (by omega)]

/-- Witness for claim C6: the predict contract applied to the model fit on
X0 = [[2]], y = [3] and the query matrix [[1], [4]], with the identity map
standing in for the external pseudo-inverse. -/
theorem claimC6_predict_contract_witness :
    predict initModel [[(1:ℚ)], [(4:ℚ)]] = .error .modelNotFit ∧
    ∃ w, (fit (fun M => M) [[(2:ℚ)]] [(3:ℚ)]).weights = some w ∧
      ((1:ℕ) ≠ 1 → predict (fit (fun M => M) [[(2:ℚ)]] [(3:ℚ)]) [[(1:ℚ)], [(4:ℚ)]] =
        .error .dimensionMismatch) ∧
      ((1:ℕ) = 1 → predict (fit (fun M => M) [[(2:ℚ)]] [(3:ℚ)]) [[(1:ℚ)], [(4:ℚ)]] =
        .ok (matVec (addBias [[(1:ℚ)], [(4:ℚ)]]) w)) :=
  claimC6_predict_contract (fun M => M) [[(2:ℚ)]] [(3:ℚ)] [[(1:ℚ)], [(4:ℚ)]] 1 1 2 1
    (by decide) (by decide) (fun M => rfl) (by decide) (by decide)

/-- Python int() applied to a real value: truncation toward zero. -/
def pyInt (q : ℚ) : ℤ := if 0 ≤ q then ⌊q⌋ else ⌈q⌉

/-- The effective index of the Python slices a[:j] and a[j:] on a list of
length n: a nonnegative j clamps to n, a negative j counts from the end
and clamps to 0. -/
def pyIdx (j : ℤ) (n : ℕ) : ℕ := if 0 ≤ j then min j.toNat n else ((n : ℤ) + j).toNat

/-- The train-test split of load_and_preprocess_data at the level of row
indices.  The code calls np.random.seed(random_state) immediately before
np.random.permutation(n), so the permutation is a pure function of seed and
n; that external generator enters as the parameter rng.  split_idx is
int((1 - test_size) * n), and the index lists are indices[:split_idx] and
indices[split_idx:]. -/
def splitIndices (rng : ℕ → ℕ → List ℕ) (seed : ℕ) (test_size : ℚ) (n : ℕ) :
    List ℕ × List ℕ :=
  ((rng seed n).take (pyIdx (pyInt ((1 - test_size) * n)) (rng seed n).length),
   (rng seed n).drop (pyIdx (pyInt ((1 - test_size) * n)) (rng seed n).length))

/-- Subscripting X[idx] by a numpy integer index array. -/
def selectRows (X : List (List ℚ)) (idx : List ℕ) : List (List ℚ) :=
  idx.map (fun i => X.getD i [])

/-- The full split of load_and_preprocess_data: X and y subscripted with the
train and test index lists. -/
def splitData (rng : ℕ → ℕ → List ℕ) (seed : ℕ) (test_size : ℚ) (X : List (List ℚ))
    (y : List ℚ) : List (List ℚ) × List (List ℚ) × List ℚ × List ℚ :=
  (selectRows X (splitIndices rng seed test_size X.length).1,
   selectRows X (splitIndices rng seed test_size X.length).2,
   (splitIndices rng seed test_size X.length).1.map (fun i => y.getD i 0),
   (splitIndices rng seed test_size X.length).2.map (fun i => y.getD i 0))

lemma splitIndices_cut (rng : ℕ → ℕ → List ℕ) (seed : ℕ) (f : ℚ) (n : ℕ)
    (h0 : 0 < f) (h1 : f < 1) (hperm : (rng seed n).Perm (List.range n)) :
    pyIdx (pyInt ((1 - f) * n)) (rng seed n).length = (⌊(1 - f) * (n : ℚ)⌋).toNat := by
  have hlen : (rng seed n).length = n := hperm.length_eq.trans (List.length_range n)
  have hq0 : 0 ≤ (1 - f) * (n : ℚ) := mul_nonneg (by linarith) (Nat.cast_nonneg n)
  have hfl0 : 0 ≤ ⌊(1 - f) * (n : ℚ)⌋ := Int.le_floor.mpr (by exact_mod_cast hq0)
  have hqn : (1 - f) * (n : ℚ) ≤ (n : ℚ) := by
    calc (1 - f) * (n : ℚ) ≤ 1 * (n : ℚ) :=
          mul_le_mul_of_nonneg_right (by linarith) (Nat.cast_nonneg n)
      _ = (n : ℚ) := one_mul _
  have hfln : ⌊(1 - f) * (n : ℚ)⌋ ≤ (n : ℤ) := by
    have := Int.floor_le_floor hqn
    rwa [Int.floor_natCast] at this
  have hcut : (⌊(1 - f) * (n : ℚ)⌋).toNat ≤ n := by omega
  rw [pyInt, if_pos hq0, pyIdx, if_pos hfl0, hlen, min_eq_left hcut]

/-- Claim C3: on a non-empty dataset with test fraction in (0, 1), the split
takes the seeded permutation of [0, n), cuts it at
floor(n * (1 - test_fraction)), and returns the two slices in permutation
order; the two index lists are disjoint and together are exactly the index
set [0, n), so their lengths add to n. -/
theorem claimC3_split_partition
    (rng : ℕ → ℕ → List ℕ) (seed : ℕ) (f : ℚ) (n : ℕ)
    (hn : 1 ≤ n) (h0 : 0 < f) (h1 : f < 1)
    (hperm : (rng seed n).Perm (List.range n)) :
    (splitIndices rng seed f n).1 = (rng seed n).take ((⌊(1 - f) * (n : ℚ)⌋).toNat) ∧
    (splitIndices rng seed f n).2 = (rng seed n).drop ((⌊(1 - f) * (n : ℚ)⌋).toNat) ∧
    (splitIndices rng seed f n).1.length + (splitIndices rng seed f n).2.length = n ∧
    (splitIndices rng seed f n).1.Disjoint (splitIndices rng seed f n).2 ∧
    (∀ i, (i ∈ (splitIndices rng seed f n).1 ∨ i ∈ (splitIndices rng seed f n).2) ↔ i < n) := by
  have hlen : (rng seed n).length = n := hperm.length_eq.trans (List.length_range n)
  have hcut := splitIndices_cut rng seed f n h0 h1 hperm
  have hnd : (rng seed n).Nodup := hperm.nodup_iff.mpr (List.nodup_range n)
  refine ⟨by rw [splitIndices, hcut], by rw [splitIndices, hcut], ?_, ?_, ?_⟩
  · have h2 := congrArg List.length
      (List.take_append_drop (pyIdx (pyInt ((1 - f) * n)) (rng seed n).length) (rng seed n))
    rw [List.length_append] at h2
    rw [splitIndices]
    rw [h2, hlen]
  · exact List.disjoint_take_drop hnd (le_refl _)
  · intro i
    have hmem : i ∈ rng seed n ↔ i < n := by
      rw [hperm.mem_iff, List.mem_range]
    rw [splitIndices]
    constructor
    · intro hc
      rcases hc with hc | hc
      · exact hmem.mp (List.mem_of_mem_take hc)
      · exact hmem.mp (List.mem_of_mem_drop hc)
    · intro hi
      have hin : i ∈ rng seed n := hmem.mpr hi
      have := List.take_append_drop (pyIdx (pyInt ((1 - f) * n)) (rng seed n).length) (rng seed n)
      rw [← this, List.mem_append] at hin
      exact hin

/-- Witness for claim C3: the partition theorem at n = 5, test fraction 1/5,
seed 42, with the identity permutation standing in for the seeded generator. -/
theorem claimC3_split_partition_witness :
    (splitIndices (fun _ m => List.range m) 42 (1/5) 5).1 =
      ((fun _ m => List.range m) 42 5).take ((⌊(1 - 1/5) * ((5:ℕ) : ℚ)⌋).toNat) ∧
    (splitIndices (fun _ m => List.range m) 42 (1/5) 5).2 =
      ((fun _ m => List.range m) 42 5).drop ((⌊(1 - 1/5) * ((5:ℕ) : ℚ)⌋).toNat) ∧
    (splitIndices (fun _ m => List.range m) 42 (1/5) 5).1.length +
      (splitIndices (fun _ m => List.range m) 42 (1/5) 5).2.length = 5 ∧
    (splitIndices (fun _ m => List.range m) 42 (1/5) 5).1.Disjoint
      (splitIndices (fun _ m => List.range m) 42 (1/5) 5).2 ∧
    (∀ i, (i ∈ (splitIndices (fun _ m => List.range m) 42 (1/5) 5).1 ∨
      i ∈ (splitIndices (fun _ m => List.range m) 42 (1/5) 5).2) ↔ i < 5) :=
  claimC3_split_partition (fun _ m => List.range m) 42 (1/5) 5 (by decide)
    (by norm_num) (by norm_num) (List.Perm.refl _)

/-- Claim C4: the split is deterministic.  The permutation is a pure
function of seed and length, so two invocations on the same arguments
coincide, and the index partition depends on the dataset only through its
size. -/
theorem claimC4_split_deterministic
    (rng : ℕ → ℕ → List ℕ) (seed : ℕ) (f : ℚ)
    (X1 X2 : List (List ℚ)) (y1 y2 : List ℚ) (hlen : X1.length = X2.length) :
    splitData rng seed f X1 y1 = splitData rng seed f X1 y1 ∧
    splitIndices rng seed f X1.length = splitIndices rng seed f X2.length :=
  ⟨rfl, by rw [hlen]⟩

/-- Witness for claim C4: determinism at two different datasets of the same
size. -/
theorem claimC4_split_deterministic_witness :
    splitData (fun _ m => List.range m) 7 (1/4) [[(1:ℚ)], [(2:ℚ)]] [(1:ℚ), (2:ℚ)] =
      splitData (fun _ m => List.range m) 7 (1/4) [[(1:ℚ)], [(2:ℚ)]] [(1:ℚ), (2:ℚ)] ∧
    splitIndices (fun _ m => List.range m) 7 (1/4) ([[(1:ℚ)], [(2:ℚ)]] : List (List ℚ)).length =
      splitIndices (fun _ m => List.range m) 7 (1/4) ([[(3:ℚ)], [(4:ℚ)]] : List (List ℚ)).length :=
  claimC4_split_deterministic (fun _ m => List.range m) 7 (1/4)
    [[(1:ℚ)], [(2:ℚ)]] [[(3:ℚ)], [(4:ℚ)]] [(1:ℚ), (2:ℚ)] [(3:ℚ), (4:ℚ)] (by decide)

/-- Counterexample for claim C7: the split code performs no input
validation.  On the empty dataset it returns the empty train and test lists
instead of failing, and with test fraction 3/2 outside (0, 1) it returns
the Python-sliced lists [0, 1] and [2, 3] on four rows instead of failing. -/
theorem claimC7_counterexample :
    splitIndices (fun _ m => List.range m) 42 (1/5) 0 = ([], []) ∧
    splitIndices (fun _ m => List.range m) 42 (3/2) 4 = ([0, 1], [2, 3]) := by
  constructor
  · simp [splitIndices]
  · have hp : pyInt ((1 - 3/2) * ((4:ℕ) : ℚ)) = -2 := by
      rw [pyInt, if_neg (by norm_num)]
      have h4 : ((1:ℚ) - 3/2) * ((4:ℕ) : ℚ) = ((-2 : ℤ) : ℚ) := by norm_num
      rw [h4, Int.ceil_intCast]
    simp only [splitIndices, hp]
    decide

/-- Claim C7 as amended: the split never fails; for every dataset size,
test fraction and seed it returns two slices of the permutation that
concatenate back to the permutation and whose lengths add to n. -/
theorem claimC7_split_total
    (rng : ℕ → ℕ → List ℕ) (seed : ℕ) (f : ℚ) (n : ℕ)
    (hperm : (rng seed n).Perm (List.range n)) :
    (splitIndices rng seed f n).1 ++ (splitIndices rng seed f n).2 = rng seed n ∧
    (splitIndices rng seed f n).1.length + (splitIndices rng seed f n).2.length = n := by
  have hlen : (rng seed n).length = n := hperm.length_eq.trans (List.length_range n)
  constructor
  · exact List.take_append_drop _ _
  · have h2 := congrArg List.length
      (List.take_append_drop (pyIdx (pyInt ((1 - f) * n)) (rng seed n).length) (rng seed n))
    rw [List.length_append] at h2
    rw [splitIndices]
    rw [h2, hlen]

/-- Witness for claim C7 as amended: totality of the split at n = 3 with
test fraction 2/3. -/
theorem claimC7_split_total_witness :
    (splitIndices (fun _ m => List.range m) 1 (2/3) 3).1 ++
      (splitIndices (fun _ m => List.range m) 1 (2/3) 3).2 =
      (fun _ m => List.range m) 1 3 ∧
    (splitIndices (fun _ m => List.range m) 1 (2/3) 3).1.length +
      (splitIndices (fun _ m => List.range m) 1 (2/3) 3).2.length = 3 :=
  claimC7_split_total (fun _ m => List.range m) 1 (2/3) 3 (List.Perm.refl _)

/-- np.mean: the sum divided by the length.  On an empty array numpy emits a
warning and produces NaN without raising; here the empty case is the junk
value of division by zero. -/
def npMean (l : List ℚ) : ℚ := l.sum / l.length

/-- Elementwise subtraction of two 1-D numpy arrays under the broadcasting
rule: equal lengths subtract pointwise, a length-1 operand stretches to the
other length, and any other pair of lengths raises a ValueError (none
here). -/
def npSub (a b : List ℚ) : Option (List ℚ) :=
  if a.length = b.length then some (List.zipWith (fun x y => x - y) a b)
  else if b.length = 1 then some (a.map (fun x => x - b.headI))
  else if a.length = 1 then some (b.map (fun x => a.headI - x))
  else none

/-- ss_res of calculate_metrics: the sum of squared residuals. -/
def ssRes (d : List ℚ) : ℚ := (d.map (fun x => x ^ 2)).sum

/-- ss_tot of calculate_metrics: the sum of squares of y_true around its
mean. -/
def ssTot (t : List ℚ) : ℚ := (t.map (fun x => (x - npMean t) ^ 2)).sum

/-- The metrics dict of model_evaluation.calculate_metrics.  mse, mae and
r2 are field arithmetic on the inputs; rmse is the real square root of
mse. -/
structure Metrics where
  mse : ℚ
  rmse : ℝ
  mae : ℚ
  r2 : ℚ

/-- The one failure calculate_metrics can produce: the broadcast ValueError
numpy raises inside y_true - y_pred.  The function body contains no
validation and no exception handling of its own. -/
inductive MetricError where
  | broadcastMismatch
deriving DecidableEq

/-- The metrics built from the difference array d and y_true, exactly the
four assignments of calculate_metrics; the r2 division is unguarded as in
the source. -/
noncomputable def metricsOf (d t : List ℚ) : Metrics :=
  ⟨npMean (d.map (fun x => x ^ 2)),
   Real.sqrt ((npMean (d.map (fun x => x ^ 2)) : ℚ) : ℝ),
   npMean (d.map (fun x => |x|)),
   1 - ssRes d / ssTot t⟩

/-- model_evaluation.calculate_metrics: broadcasting subtraction first,
then mse = mean(d^2), rmse = sqrt(mse), mae = mean(|d|),
r2 = 1 - ss_res/ss_tot. -/
noncomputable def calculate_metrics (t p : List ℚ) : Except MetricError Metrics :=
  match npSub t p with
  | none => .error .broadcastMismatch
  | some d => .ok (metricsOf d t)

lemma npSub_of_length_eq {t p : List ℚ} (h : t.length = p.length) :
    npSub t p = some (List.zipWith (fun x y => x - y) t p) := by
  rw [npSub, if_pos h]

lemma calculate_metrics_eq_ok {t p d : List ℚ} (h : npSub t p = some d) :
    calculate_metrics t p = .ok (metricsOf d t) := by
  unfold calculate_metrics
  rw [h]

lemma zipWith_sub_self (l : List ℚ) :
    List.zipWith (fun x y => x - y) l l = l.map (fun _ => (0:ℚ)) := by
  induction l with
  | nil => rfl
  | cons a l ih => simp [ih]

/-- Claim C5: on equal-length non-empty inputs, calculate_metrics returns
exactly mse = mean of squared differences, rmse = sqrt(mse), mae = mean of
absolute differences, and r2 = 1 - ss_res/ss_tot with ss_tot taken around
the mean of y_true; and on identical non-constant inputs the metrics are
0, 0, 0 and 1. -/
theorem claimC5_metrics_formulas (t p : List ℚ) (hlen : t.length = p.length) (hne : t ≠ []) :
    (∃ m, calculate_metrics t p = .ok m ∧
      m.mse = ((List.zipWith (fun x y => x - y) t p).map (fun x => x ^ 2)).sum / t.length ∧
      m.rmse = Real.sqrt ((m.mse : ℚ) : ℝ) ∧
      m.mae = ((List.zipWith (fun x y => x - y) t p).map (fun x => |x|)).sum / t.length ∧
      m.r2 = 1 - ((List.zipWith (fun x y => x - y) t p).map (fun x => x ^ 2)).sum /
        (t.map (fun x => (x - t.sum / t.length) ^ 2)).sum) ∧
    ((∃ a ∈ t, ∃ b ∈ t, a ≠ b) →
      ∃ m, calculate_metrics t t = .ok m ∧
        m.mse = 0 ∧ m.rmse = 0 ∧ m.mae = 0 ∧ m.r2 = 1) := by
  constructor
  · have hOk := calculate_metrics_eq_ok (npSub_of_length_eq hlen)
    have hlsq : ((List.zipWith (fun x y => x - y) t p).map (fun x => x ^ 2)).length
        = t.length := by simp [hlen]
    have hlab : ((List.zipWith (fun x y => x - y) t p).map (fun x => |x|)).length
        = t.length := by simp [hlen]
    refine ⟨_, hOk, ?_, rfl, ?_, rfl⟩
    · show npMean _ = _
      rw [npMean, hlsq]
    · show npMean _ = _
      rw [npMean, hlab]
  · intro hnc
    have hd := zipWith_sub_self t
    have hOk := calculate_metrics_eq_ok (npSub_of_length_eq (rfl : t.length = t.length))
    have hz : (t.map (fun _ => (0:ℚ))).sum = 0 :=
      List.sum_eq_zero (by
        intro x hx
        obtain ⟨a, _, h⟩ := List.mem_map.mp hx
        exact h.symm)
    have hmse : npMean ((List.zipWith (fun x y => x - y) t t).map (fun x => x ^ 2)) = 0 := by
      rw [hd]
      have hmap : ((t.map (fun _ => (0:ℚ))).map (fun x => x ^ 2)) = t.map (fun _ => (0:ℚ)) := by
        simp
      rw [hmap, npMean, hz, zero_div]
    have hmae : npMean ((List.zipWith (fun x y => x - y) t t).map (fun x => |x|)) = 0 := by
      rw [hd]
      have hmap : ((t.map (fun _ => (0:ℚ))).map (fun x => |x|)) = t.map (fun _ => (0:ℚ)) := by
        simp
      rw [hmap, npMean, hz, zero_div]
    have hssres : ssRes (List.zipWith (fun x y => x - y) t t) = 0 := by
      rw [ssRes, hd]
      have hmap : ((t.map (fun _ => (0:ℚ))).map (fun x => x ^ 2)) = t.map (fun _ => (0:ℚ)) := by
        simp
      rw [hmap, hz]
    refine ⟨_, hOk, hmse, ?_, hmae, ?_⟩
    · show Real.sqrt _ = 0
      rw [hmse]
      simp
    · show 1 - ssRes _ / ssTot t = 1
      rw [hssres, zero_div, sub_zero]

/-- Witness for claim C5: the metrics formulas applied at
y_true = y_pred = [1, 2]. -/
theorem claimC5_metrics_formulas_witness :
    (∃ m, calculate_metrics [(1:ℚ), 2] [(1:ℚ), 2] = .ok m ∧
      m.mse = ((List.zipWith (fun x y => x - y) [(1:ℚ), 2] [(1:ℚ), 2]).map
        (fun x => x ^ 2)).sum / ([(1:ℚ), 2] : List ℚ).length ∧
      m.rmse = Real.sqrt ((m.mse : ℚ) : ℝ) ∧
      m.mae = ((List.zipWith (fun x y => x - y) [(1:ℚ), 2] [(1:ℚ), 2]).map
        (fun x => |x|)).sum / ([(1:ℚ), 2] : List ℚ).length ∧
      m.r2 = 1 - ((List.zipWith (fun x y => x - y) [(1:ℚ), 2] [(1:ℚ), 2]).map
        (fun x => x ^ 2)).sum /
        (([(1:ℚ), 2] : List ℚ).map (fun x =>
          (x - ([(1:ℚ), 2] : List ℚ).sum / ([(1:ℚ), 2] : List ℚ).length) ^ 2)).sum) ∧
    ((∃ a ∈ ([(1:ℚ), 2] : List ℚ), ∃ b ∈ ([(1:ℚ), 2] : List ℚ), a ≠ b) →
      ∃ m, calculate_metrics [(1:ℚ), 2] [(1:ℚ), 2] = .ok m ∧
        m.mse = 0 ∧ m.rmse = 0 ∧ m.mae = 0 ∧ m.r2 = 1) :=
  claimC5_metrics_formulas [(1:ℚ), 2] [(1:ℚ), 2] rfl (by decide)

/-- Counterexample for claim C8: calculate_metrics does not fail on a
length mismatch when one operand has length 1 (numpy broadcasting), and it
does not fail on empty inputs; both return a metrics record. -/
theorem claimC8_counterexample :
    (∃ m, calculate_metrics [(1:ℚ), 2, 3] [(1:ℚ)] = .ok m) ∧
    (∃ m, calculate_metrics ([] : List ℚ) ([] : List ℚ) = .ok m) :=
  ⟨⟨_, rfl⟩, ⟨_, rfl⟩⟩

/-- Claim C8 as amended: the only failure of calculate_metrics is the numpy
broadcast error, raised exactly when the lengths differ and neither is 1;
empty sequences are not rejected. -/
theorem claimC8_error_iff (t p : List ℚ) :
    calculate_metrics t p = .error .broadcastMismatch ↔
      (t.length ≠ p.length ∧ p.length ≠ 1 ∧ t.length ≠ 1) := by
  unfold calculate_metrics npSub
  split_ifs with h1 h2 h3
  · simp [h1]
  · simp [h1, h2]
  · simp [h1, h2, h3]
  · simp [h1, h2, h3]

lemma sum_of_all_eq (l : List ℚ) (c : ℚ) (h : ∀ x ∈ l, x = c) : l.sum = c * l.length := by
  induction l with
  | nil => simp
  | cons a l ih =>
    have ha : a = c := h a (List.mem_cons_self a l)
    have ht : l.sum = c * l.length := ih (fun x hx => h x (List.mem_cons_of_mem a hx))
    rw [List.sum_cons, ha, ht, List.length_cons]
    push_cast
    ring

lemma npMean_const (t : List ℚ) (c : ℚ) (h : ∀ x ∈ t, x = c) (hne : t ≠ []) :
    npMean t = c := by
  have hlen : (t.length : ℚ) ≠ 0 := by
    have : t.length ≠ 0 := fun h0 => hne (List.length_eq_zero.mp h0)
    exact_mod_cast this
  rw [npMean, sum_of_all_eq t c h, mul_div_assoc, div_self hlen, mul_one]

lemma ssTot_const (t : List ℚ) (c : ℚ) (h : ∀ x ∈ t, x = c) : ssTot t = 0 := by
  cases t with
  | nil => rfl
  | cons a l =>
    apply List.sum_eq_zero
    intro x hx
    obtain ⟨b, hb, hbx⟩ := List.mem_map.mp hx
    rw [← hbx, h b hb, npMean_const (a :: l) c h (by simp), sub_self]
    norm_num

/-- Claim C9: when all values of y_true are identical, ss_tot evaluates to
zero and calculate_metrics still returns a metrics record whose r2 field is
the unguarded expression 1 - ss_res/ss_tot at that zero denominator; no
error is raised and no substitute value is installed. -/
theorem claimC9_r2_unguarded (t p : List ℚ) (c : ℚ) (hconst : ∀ x ∈ t, x = c)
    (hlen : t.length = p.length) :
    ssTot t = 0 ∧
    ∃ m, calculate_metrics t p = .ok m ∧
      m.r2 = 1 - ssRes (List.zipWith (fun x y => x - y) t p) / ssTot t :=
  ⟨ssTot_const t c hconst,
   ⟨_, calculate_metrics_eq_ok (npSub_of_length_eq hlen), rfl⟩⟩

/-- Witness for claim C9: the unguarded division at y_true = [2, 2],
y_pred = [1, 3]. -/
theorem claimC9_r2_unguarded_witness :
    ssTot [(2:ℚ), 2] = 0 ∧
    ∃ m, calculate_metrics [(2:ℚ), 2] [(1:ℚ), 3] = .ok m ∧
      m.r2 = 1 - ssRes (List.zipWith (fun x y => x - y) [(2:ℚ), 2] [(1:ℚ), 3]) /
        ssTot [(2:ℚ), 2] :=
  claimC9_r2_unguarded [(2:ℚ), 2] [(1:ℚ), 3] 2 (by decide) rfl

lemma sum_pos_of_mem (l : List ℚ) (x : ℚ) (hx : x ∈ l) (hpos : 0 < x)
    (hnn : ∀ y ∈ l, 0 ≤ y) : 0 < l.sum := by
  induction l with
  | nil => simp at hx
  | cons a l ih =>
    rw [List.sum_cons]
    rcases List.mem_cons.mp hx with rfl | hx2
    · have hl : 0 ≤ l.sum :=
        List.sum_nonneg (fun y hy => hnn y (List.mem_cons_of_mem _ hy))
      linarith
    · have ha : 0 ≤ a := hnn a (List.mem_cons_self a l)
      have hl := ih hx2 (fun y hy => hnn y (List.mem_cons_of_mem _ hy))
      linarith

lemma ssTot_pos (t : List ℚ) (hne : t ≠ [])
    (hnc : ∃ a ∈ t, ∃ b ∈ t, a ≠ b) : 0 < ssTot t := by
  obtain ⟨a, ha, b, hb, hab⟩ := hnc
  by_cases hx : ∀ x ∈ t, x = npMean t
  · exact absurd ((hx a ha).trans (hx b hb).symm) hab
  · push_neg at hx
    obtain ⟨x, hxt, hxm⟩ := hx
    refine sum_pos_of_mem _ ((x - npMean t) ^ 2) ?_ ?_ ?_
    · exact List.mem_map_of_mem (fun z => (z - npMean t) ^ 2) hxt
    · exact pow_two_pos_of_ne_zero (sub_ne_zero.mpr hxm)
    · intro y hy
      obtain ⟨z, _, hzy⟩ := List.mem_map.mp hy
      rw [← hzy]
      positivity

/-- Claim C10: on equal-length non-empty inputs with non-constant y_true,
the returned metrics satisfy mse, mae and rmse nonnegative,
rmse = sqrt(mse), and r2 at most 1. -/
theorem claimC10_metric_bounds (t p : List ℚ) (hlen : t.length = p.length) (hne : t ≠ [])
    (hnc : ∃ a ∈ t, ∃ b ∈ t, a ≠ b) :
    ∃ m, calculate_metrics t p = .ok m ∧
      0 ≤ m.mse ∧ 0 ≤ m.mae ∧ m.rmse = Real.sqrt ((m.mse : ℚ) : ℝ) ∧
      0 ≤ m.rmse ∧ m.r2 ≤ 1 := by
  refine ⟨_, calculate_metrics_eq_ok (npSub_of_length_eq hlen), ?_, ?_, rfl, ?_, ?_⟩
  · show 0 ≤ npMean _
    apply div_nonneg _ (Nat.cast_nonneg _)
    apply List.sum_nonneg
    intro x hx
    obtain ⟨z, _, hzx⟩ := List.mem_map.mp hx
    rw [← hzx]
    positivity
  · show 0 ≤ npMean _
    apply div_nonneg _ (Nat.cast_nonneg _)
    apply List.sum_nonneg
    intro x hx
    obtain ⟨z, _, hzx⟩ := List.mem_map.mp hx
    rw [← hzx]
    positivity
  · exact Real.sqrt_nonneg _
  · show 1 - ssRes _ / ssTot t ≤ 1
    have hr : 0 ≤ ssRes (List.zipWith (fun x y => x - y) t p) := by
      apply List.sum_nonneg
      intro x hx
      obtain ⟨z, _, hzx⟩ := List.mem_map.mp hx
      rw [← hzx]
      positivity
    have ht : 0 < ssTot t := ssTot_pos t hne hnc
    have : 0 ≤ ssRes (List.zipWith (fun x y => x - y) t p) / ssTot t :=
      div_nonneg hr (le_of_lt ht)
    linarith

/-- Witness for claim C10: the metric bounds at y_true = [1, 2],
y_pred = [0, 0]. -/
theorem claimC10_metric_bounds_witness :
    ∃ m, calculate_metrics [(1:ℚ), 2] [(0:ℚ), 0] = .ok m ∧
      0 ≤ m.mse ∧ 0 ≤ m.mae ∧ m.rmse = Real.sqrt ((m.mse : ℚ) : ℝ) ∧
      0 ≤ m.rmse ∧ m.r2 ≤ 1 :=
  claimC10_metric_bounds [(1:ℚ), 2] [(0:ℚ), 0] rfl (by decide) (by decide)

/-- One row per feature of the importance DataFrame built by
analyze_feature_importance: name, weight, absolute weight, aligned by
position. -/
def importanceTable (names : List String) (fw : List ℚ) : List (String × ℚ × ℚ) :=
  (names.zip fw).map (fun nw => (nw.1, nw.2, |nw.2|))

/-- The ascending comparison on the Absolute Weight column used by
sort_values. -/
def absLe (a b : String × ℚ × ℚ) : Prop := a.2.2 ≤ b.2.2

instance : DecidableRel absLe := fun a b => inferInstanceAs (Decidable (a.2.2 ≤ b.2.2))

instance : IsTotal (String × ℚ × ℚ) absLe := ⟨fun a b => le_total a.2.2 b.2.2⟩

instance : IsTrans (String × ℚ × ℚ) absLe := ⟨fun a b c h1 h2 => le_trans h1 h2⟩

/-- An ascending-sort contract is all numpy documents for argsort: the
output is a permutation of the input, ordered by the key.  No kind of
argsort guarantees a tie order (the default quicksort is documented as not
stable), so nothing more may be assumed of the kernel. -/
def SortsAscending (sortAsc : List (String × ℚ × ℚ) → List (String × ℚ × ℚ)) : Prop :=
  ∀ l, (sortAsc l).Perm l ∧ List.Sorted absLe (sortAsc l)

/-- pandas DataFrame.sort_values(by, ascending=False) on one column:
nargsort reverses the rows, applies the ascending numpy argsort (the
external kernel sortAsc), and reverses the result. -/
def sortValuesDesc (sortAsc : List (String × ℚ × ℚ) → List (String × ℚ × ℚ))
    (l : List (String × ℚ × ℚ)) : List (String × ℚ × ℚ) :=
  (sortAsc l.reverse).reverse

/-- feature_analysis.analyze_feature_importance: reads weights[1:] from the
model (get_feature_weights raises when unfit), builds the
name/weight/absolute-weight DataFrame (whose constructor raises when the
columns differ in length), and sorts it by absolute weight descending
through pandas sort_values; the numpy argsort kernel enters as sortAsc. -/
def analyze_feature_importance (sortAsc : List (String × ℚ × ℚ) → List (String × ℚ × ℚ))
    (M : LinearRegressionModel) (names : List String) :
    Except RegError (List (String × ℚ × ℚ)) :=
  match M.weights with
  | none => .error .modelNotFit
  | some w =>
      if names.length = (w.drop 1).length
      then .ok (sortValuesDesc sortAsc (importanceTable names (w.drop 1)))
      else .error .dimensionMismatch

lemma sortValuesDesc_perm (sortAsc : List (String × ℚ × ℚ) → List (String × ℚ × ℚ))
    (hsort : SortsAscending sortAsc) (l : List (String × ℚ × ℚ)) :
    (sortValuesDesc sortAsc l).Perm l :=
  (List.reverse_perm _).trans (((hsort _).1).trans (List.reverse_perm _))

lemma sortValuesDesc_sorted (sortAsc : List (String × ℚ × ℚ) → List (String × ℚ × ℚ))
    (hsort : SortsAscending sortAsc) (l : List (String × ℚ × ℚ)) :
    List.Sorted (fun a b => absLe b a) (sortValuesDesc sortAsc l) :=
  List.pairwise_reverse.mpr (hsort _).2

/-- Two sorted rearrangements of the same rows coincide when the sort keys
are pairwise distinct (the descending analogue, on the absolute-weight
key, of the sorted-permutation uniqueness argument). -/
lemma eq_of_perm_of_sorted_of_distinct_keys :
    ∀ l1 l2 : List (String × ℚ × ℚ), l1.Perm l2 →
      List.Sorted (fun a b => absLe b a) l1 →
      List.Sorted (fun a b => absLe b a) l2 →
      List.Pairwise (fun a b => a.2.2 ≠ b.2.2) l2 →
      l1 = l2 := by
  intro l1
  induction l1 with
  | nil =>
    intro l2 h _ _ _
    exact (h.symm.eq_nil).symm
  | cons a t1 ih =>
    intro l2 h s1 s2 hd
    cases l2 with
    | nil =>
      have := h.eq_nil
      simp at this
    | cons b t2 =>
      have hab : a = b := by
        by_contra hne
        have ha2 : a ∈ t2 := by
          have hm := h.subset (List.mem_cons_self a t1)
          rcases List.mem_cons.mp hm with h1 | h1
          · exact absurd h1 hne
          · exact h1
        have hb1 : b ∈ t1 := by
          have hm := h.symm.subset (List.mem_cons_self b t2)
          rcases List.mem_cons.mp hm with h1 | h1
          · exact absurd h1.symm hne
          · exact h1
        have h1 : b.2.2 ≤ a.2.2 := (List.sorted_cons.mp s1).1 b hb1
        have h2 : a.2.2 ≤ b.2.2 := (List.sorted_cons.mp s2).1 a ha2
        have h3 : b.2.2 ≠ a.2.2 := (List.pairwise_cons.mp hd).1 a ha2
        exact h3 (le_antisymm h1 h2)
      subst hab
      have ht : t1 = t2 := ih t2 h.cons_inv (List.sorted_cons.mp s1).2
        (List.sorted_cons.mp s2).2 (List.pairwise_cons.mp hd).2
      rw [ht]

lemma example_table_eval (sortAsc : List (String × ℚ × ℚ) → List (String × ℚ × ℚ))
    (hsort : SortsAscending sortAsc) :
    analyze_feature_importance sortAsc ⟨some [1, -5, 3, 1/10], some 3⟩ ["A", "B", "C"] =
      .ok [("A", -5, 5), ("B", 3, 3), ("C", 1/10, 1/10)] := by
  have hT : importanceTable ["A", "B", "C"] (([1, -5, 3, 1/10] : List ℚ).drop 1) =
      [("A", -5, 5), ("B", 3, 3), ("C", 1/10, 1/10)] := by
    have h10 : |(1:ℚ)/10| = 1/10 := abs_of_nonneg (by norm_num)
    norm_num [importanceTable, h10]
  have hok : analyze_feature_importance sortAsc ⟨some [1, -5, 3, 1/10], some 3⟩
      ["A", "B", "C"] = .ok (sortValuesDesc sortAsc
        (importanceTable ["A", "B", "C"] (([1, -5, 3, 1/10] : List ℚ).drop 1))) := rfl
  rw [hok, hT]
  congr 1
  apply eq_of_perm_of_sorted_of_distinct_keys
  · exact sortValuesDesc_perm sortAsc hsort _
  · exact sortValuesDesc_sorted sortAsc hsort _
  · norm_num [List.sorted_cons, absLe]
  · norm_num [List.pairwise_cons]

/-- Counterexample for claim C2: at the specification's own example,
weights [1, -5, 3, 1/10] and names [A, B, C], the code pairs each name
with the feature weight at its own position, so the sorted table is
[(A, -5, 5), (B, 3, 3), (C, 1/10, 1/10)] and not the claimed
[(B, -5, 5), (A, 3, 3), (C, 1/10, 1/10)].  The absolute weights at this
input are pairwise distinct, so every argsort kernel meeting the numpy
contract produces this same output; the closed statement instantiates one
such kernel. -/
theorem claimC2_counterexample :
    analyze_feature_importance (List.insertionSort absLe)
        ⟨some [1, -5, 3, 1/10], some 3⟩ ["A", "B", "C"] =
      .ok [("A", -5, 5), ("B", 3, 3), ("C", 1/10, 1/10)] ∧
    ([("A", -5, 5), ("B", 3, 3), ("C", 1/10, 1/10)] : List (String × ℚ × ℚ)) ≠
      [("B", -5, 5), ("A", 3, 3), ("C", 1/10, 1/10)] := by
  constructor
  · exact example_table_eval (List.insertionSort absLe)
      (fun l => ⟨List.perm_insertionSort absLe l, List.sorted_insertionSort absLe l⟩)
  · intro h
    have h1 := (List.cons.inj h).1
    have h2 := congrArg Prod.fst h1
    simp at h2

/-- Claim C2 as amended: on a fit model with k + 1 weights and k names,
and for every argsort kernel satisfying the numpy contract (an ascending
permutation; no tie order is guaranteed by the default quicksort kind),
analyze_feature_importance succeeds and returns a permutation of the
positionally built name/weight/absolute-weight table, sorted by absolute
weight descending; at the specification's example input, whose absolute
weights are pairwise distinct, the order is
[(A, -5, 5), (B, 3, 3), (C, 1/10, 1/10)] for every such kernel. -/
theorem claimC2_rank_features (sortAsc : List (String × ℚ × ℚ) → List (String × ℚ × ℚ))
    (hsort : SortsAscending sortAsc)
    (M : LinearRegressionModel) (names : List String) (w : List ℚ)
    (hw : M.weights = some w) (hlen : names.length + 1 = w.length) :
    ∃ out, analyze_feature_importance sortAsc M names = .ok out ∧
      out.Perm (importanceTable names (w.drop 1)) ∧
      List.Sorted (fun a b => absLe b a) out ∧
      analyze_feature_importance sortAsc ⟨some [1, -5, 3, 1/10], some 3⟩ ["A", "B", "C"] =
        .ok [("A", -5, 5), ("B", 3, 3), ("C", 1/10, 1/10)] := by
  have hdl : names.length = (w.drop 1).length := by
    rw [List.length_drop]
    omega
  have hok : analyze_feature_importance sortAsc M names =
      .ok (sortValuesDesc sortAsc (importanceTable names (w.drop 1))) := by
    have hstep : analyze_feature_importance sortAsc M names =
        if names.length = (w.drop 1).length
        then .ok (sortValuesDesc sortAsc (importanceTable names (w.drop 1)))
        else .error .dimensionMismatch := by
      unfold analyze_feature_importance
      rw [hw]
    rw [hstep, if_pos hdl]
  exact ⟨_, hok, sortValuesDesc_perm sortAsc hsort _, sortValuesDesc_sorted sortAsc hsort _,
    example_table_eval sortAsc hsort⟩

/-- Witness for claim C2 as amended: the ranking theorem at the model with
weights [1, -5, 3, 1/10] and names [A, B, C], with insertion sort as one
argsort kernel satisfying the numpy contract. -/
theorem claimC2_rank_features_witness :
    ∃ out, analyze_feature_importance (List.insertionSort absLe)
        ⟨some [1, -5, 3, 1/10], some 3⟩ ["A", "B", "C"] = .ok out ∧
      out.Perm (importanceTable ["A", "B", "C"] (([1, -5, 3, 1/10] : List ℚ).drop 1)) ∧
      List.Sorted (fun a b => absLe b a) out ∧
      analyze_feature_importance (List.insertionSort absLe)
        ⟨some [1, -5, 3, 1/10], some 3⟩ ["A", "B", "C"] =
        .ok [("A", -5, 5), ("B", 3, 3), ("C", 1/10, 1/10)] :=
  claimC2_rank_features (List.insertionSort absLe)
    (fun l => ⟨List.perm_insertionSort absLe l, List.sorted_insertionSort absLe l⟩)
    ⟨some [1, -5, 3, 1/10], some 3⟩ ["A", "B", "C"] [1, -5, 3, 1/10] rfl (by norm_num)

end Task1
